import Mathlib

/-!
# Verification of the `formula` module (CJWorkbench)

Shallow embedding of `formula.py`: the type sanitizer/autocaster for pandas
Series, the Excel range resolution and evaluation engines (one-row and
all-rows), datetime-to-serial table preparation, output column naming,
the render orchestrator, and parameter migration.

Modelling conventions:
* A pandas cell value is a `Value` (null covers both `None` and `NaN`);
  opaque Python objects (e.g. `XlError`) are `Value.obj` carrying their
  `str()` form.
* A pandas Series is a `Series`, tagged by its dtype: `obj` (object dtype),
  `numeric` (int64/float64 collapsed to `Rat`), `datetime`
  (datetime64[ns], nanoseconds since the Unix epoch as `Int`, `none` = NaT)
  and `cat` (categorical: a label list plus per-row optional codes).
* Machine floats are modelled as exact rationals; numpy integer/float
  distinctions are immaterial to the properties proved here.
* The external `formulas` compiler and the Python `compile`/`eval`
  capability are opaque collaborators; they appear as explicit function
  parameters (oracles) of the embedded operations.
* Categorical category order produced by `pd.Categorical` (sorted) is
  modelled by a deduplication order; no property proved here depends on
  the order of the label list, only on its membership and distinctness.
-/

deriving instance DecidableEq for Except

/-! ## Small list helpers (index-of and dedup with controlled defeq) -/

def idxOf {α : Type} [DecidableEq α] (a : α) : List α → Nat
  | [] => 0
  | b :: bs => if b = a then 0 else idxOf a bs + 1

def uniqList {α : Type} [DecidableEq α] : List α → List α
  | [] => []
  | a :: as => if a ∈ as then uniqList as else a :: uniqList as

/-! ## Values -/

inductive Value : Type
  | null : Value
  | num (q : Rat) : Value
  | str (s : String) : Value
  | dt (ns : Int) : Value
  | obj (objStr : String) : Value
deriving DecidableEq, Repr

/-- The `str()` form of a value, as used by `series.astype(str)`. -/
def Value.toDisplay : Value → String
  | .null => "None"
  | .num q => toString q
  | .str s => s
  | .dt ns => toString ns
  | .obj r => r

def isNumericValue : Value → Bool
  | .num _ => true
  | _ => false

def isStrValue : Value → Bool
  | .str _ => true
  | _ => false

def valueNum : Value → Option Rat
  | .num q => some q
  | _ => none

/-! ## Numeric parsing (model of `pd.to_numeric` on one value) -/

/-- Parse an unsigned decimal literal (digits, optional point). -/
def parseUnsigned (cs : List Char) : Option Rat :=
  match cs.span Char.isDigit with
  | (intPart, rest) =>
    match rest with
    | [] =>
      if intPart = [] then none
      else some ((intPart.foldl (fun a c => a * 10 + (c.toNat - 48)) 0 : Nat) : Rat)
    | '.' :: fracPart =>
      if fracPart.all Char.isDigit ∧ (intPart ≠ [] ∨ fracPart ≠ []) then
        some (((intPart.foldl (fun a c => a * 10 + (c.toNat - 48)) 0 : Nat) : Rat)
          + ((fracPart.foldl (fun a c => a * 10 + (c.toNat - 48)) 0 : Nat) : Rat)
            / ((10 : Rat) ^ fracPart.length))
      else none
    | _ => none

def parseNum (s : String) : Option Rat :=
  match s.toList with
  | '-' :: rest => (parseUnsigned rest).map (fun q => -q)
  | '+' :: rest => parseUnsigned rest
  | cs => parseUnsigned cs

/-- `pd.to_numeric` on one cell of an object column: nulls become NaN
(kept as `none`), numbers pass through, strings are parsed, anything else
raises (`none` at the outer level). -/
def valueToNumeric : Value → Option (Option Rat)
  | .null => some none
  | .num q => some (some q)
  | .str s =>
    match parseNum s with
    | some q => some (some q)
    | none => none
  | _ => none

/-- `pd.to_numeric` over a list of cells: all cells must convert. -/
def allToNumeric : List Value → Option (List (Option Rat))
  | [] => some []
  | v :: vs =>
    match valueToNumeric v, allToNumeric vs with
    | some o, some os => some (o :: os)
    | _, _ => none

/-! ## Series -/

inductive Series : Type
  | obj (vs : List Value) : Series
  | numeric (vs : List (Option Rat)) : Series
  | datetime (vs : List (Option Int)) : Series
  | cat (labels : List Value) (codes : List (Option Nat)) : Series
deriving DecidableEq, Repr

def Series.length : Series → Nat
  | .obj vs => vs.length
  | .numeric vs => vs.length
  | .datetime vs => vs.length
  | .cat _ codes => codes.length

/-- The cell at row `i` of a series, as a `Value` (out of range gives null,
matching numpy's behaviour when a slice is clamped away). -/
def Series.cellAt : Series → Nat → Value
  | .obj vs, i => vs.getD i .null
  | .numeric vs, i => (vs.getD i none).elim .null .num
  | .datetime vs, i => (vs.getD i none).elim .null .dt
  | .cat labels codes, i =>
    match codes.getD i none with
    | some k => labels.getD k .null
    | none => .null

/-- A real pandas categorical always has codes within the label range;
our wider `Series` type records that invariant separately. -/
def seriesWF : Series → Bool
  | .cat labels codes =>
    codes.all fun c =>
      match c with
      | some i => decide (i < labels.length)
      | none => true
  | _ => true

/-! ## sanitize_series -/

/-- `series.astype(str)` followed by restoring nulls (`ret[pd.isna(series)] = np.nan`). -/
def objNormalize (vs : List Value) : List Value :=
  vs.map fun v => if v = Value.null then Value.null else Value.str v.toDisplay

/-- The label indices that occur in the current row set. -/
def usedIdxsOf (labels : List Value) (codes : List (Option Nat)) : List Nat :=
  (List.range labels.length).filter fun i => decide (some i ∈ codes)

/-- `series.cat.remove_unused_categories()`: keep only labels that occur in
the current row set, remapping the codes. -/
def pruneCat (labels : List Value) (codes : List (Option Nat)) :
    List Value × List (Option Nat) :=
  ((usedIdxsOf labels codes).map fun i => labels.getD i Value.null,
   codes.map (Option.map fun i => idxOf i (usedIdxsOf labels codes)))

/-- `pd.Categorical(categories.astype(str)).categories`: the distinct
stringified labels. -/
def catStrCats (labels2 : List Value) : List String :=
  labels2.map Value.toDisplay

/-- `series.cat.codes`: per-row integer codes, -1 for null. -/
def catRowCodes (codes2 : List (Option Nat)) : List Int :=
  codes2.map fun c =>
    match c with
    | some i => (i : Int)
    | none => -1

/-- `series.cat.codes[mapping.codes]`: the row codes at the positions
given by `mapping.codes` (the buggy positional indexing of the remap
branch — the result has one entry per category, not per row). -/
def catSelected (labels2 : List Value) (codes2 : List (Option Nat)) : List Int :=
  (catStrCats labels2).map fun s =>
    (catRowCodes codes2).getD (idxOf s (uniqList (catStrCats labels2))) (-1)

/-- The non-string-label remap branch of `sanitize_series`, modelling
`pd.Categorical(categories.astype(str))`, the positional indexing
`series.cat.codes[mapping.codes]`, and `rename_categories` (which raises a
`ValueError` when the category counts disagree). -/
def remapCat (labels2 : List Value) (codes2 : List (Option Nat)) :
    Except String Series :=
  if (uniqList (catSelected labels2 codes2)).length ≠ (uniqList (catStrCats labels2)).length then
    .error "ValueError: new categories need to have the same number of items as the old categories"
  else
    .ok (.cat ((uniqList (catStrCats labels2)).map Value.str)
      ((catSelected labels2 codes2).map fun v =>
        some (idxOf v (uniqList (catSelected labels2 codes2)))))

/-- The dtype dispatch of `sanitize_series` on the pruned categorical. -/
def sanitizeCatPruned (labels2 : List Value) (codes2 : List (Option Nat)) :
    Except String Series :=
  if labels2 ≠ [] ∧ labels2.all isNumericValue then
    -- is_numeric_dtype(categories.values): un-categorize via to_numeric
    .ok (.numeric (codes2.map fun c => c.bind fun i => valueNum (labels2.getD i Value.null)))
  else if labels2 ≠ [] ∧ labels2.all isStrValue then
    -- categories.dtype == object and infer_dtype == "string": leave as-is
    .ok (.cat labels2 codes2)
  else
    remapCat labels2 codes2

/-- `sanitize_series` (formula.py lines 118-162). The index reset is
implicit: our `Series` carries no index. Pandas keeps the dtype of an
empty pruned category index; we model empty label sets as object dtype,
which is immaterial to every property proved below. -/
def sanitize_series : Series → Except String Series
  | .numeric vs => .ok (.numeric vs)
  | .datetime vs => .ok (.datetime vs)
  | .obj vs => .ok (.obj (objNormalize vs))
  | .cat labels codes =>
    sanitizeCatPruned (pruneCat labels codes).1 (pruneCat labels codes).2

/-! ## autocast_series_dtype -/

/-- The row value of a categorical cell. -/
def catRowValue (labels : List Value) (c : Option Nat) : Value :=
  match c with
  | some i => labels.getD i Value.null
  | none => Value.null

/-- `autocast_series_dtype` (formula.py lines 12-63). -/
def autocast_series_dtype : Series → Series
  | .obj vs =>
    if vs.all (fun v => decide (v = Value.null) || decide (v = Value.str "")) then
      .obj vs
    else
      match allToNumeric vs with
      | some ns => .numeric ns
      | none =>
        if vs.all (fun v => decide (v = Value.null) || isStrValue v) then
          .obj vs
        else
          .obj (objNormalize vs)
  | .cat labels codes =>
    if codes.all (fun c =>
        decide (catRowValue labels c = Value.null)
          || decide (catRowValue labels c = Value.str "")) then
      .cat labels codes
    else
      match allToNumeric (codes.map (catRowValue labels)) with
      | some ns => .numeric ns
      | none => .cat labels codes
  | .numeric vs => .numeric vs
  | .datetime vs => .datetime vs

/-- The sanitize-then-autocast pipeline applied to a raw result column. -/
def sanitizeAutocast (s : Series) : Except String Series :=
  match sanitize_series s with
  | .error e => .error e
  | .ok s2 => .ok (autocast_series_dtype s2)

/-! ## Tables -/

/-- A pandas DataFrame: ordered named columns. All columns of a well-formed
table share the same length. -/
structure Table : Type where
  cols : List (String × Series)
deriving DecidableEq, Repr

def Table.nCols (t : Table) : Nat := t.cols.length

/-- `len(table)`: number of rows. -/
def Table.nRows (t : Table) : Nat :=
  match t.cols with
  | [] => 0
  | c :: _ => c.2.length

/-- The cell at row `i`, column `j` (as seen by `table.values`). -/
def tableCell (t : Table) (i j : Nat) : Value :=
  ((t.cols.getD j ("", Series.obj [])).2).cellAt i

/-- Row `i` of `table.values`. -/
def tableRow (t : Table) (i : Nat) : List Value :=
  t.cols.map fun c => c.2.cellAt i

/-- All columns have the same number of rows. -/
def tableWF (t : Table) : Bool :=
  t.cols.all fun c => c.2.length = t.nRows

/-! ## i18n messages and excel evaluation errors -/

/-- An `i18n.I18nMessage`: a message id with its placeholder arguments
(the default English text is fixed by the id and omitted here). -/
structure I18nMessage : Type where
  key : String
  args : List (String × String)
deriving DecidableEq, Repr

def msgDisabledFunction (name : String) : I18nMessage :=
  ⟨"python.disabledFunction", [("name", name)]⟩

def msgFunctionNotImplemented (name : String) : I18nMessage :=
  ⟨"excel.functionNotImplemented", [("name", name)]⟩

def msgInvalidCellRange (token : String) : I18nMessage :=
  ⟨"excel.one_row.invalidCellRange", [("token", token)]⟩

def msgNotRectangular : I18nMessage :=
  ⟨"excel.one_row.cellRangeNotRectangular", []⟩

def msgOneRowBadRef (ref : String) : I18nMessage :=
  ⟨"excel.one_row.badRef", [("ref", ref)]⟩

def msgBadCellReference (token : String) : I18nMessage :=
  ⟨"excel.badCellReference", [("token", token)]⟩

def msgFirstRowReference : I18nMessage :=
  ⟨"excel.formulaFirstRowReference", []⟩

def msgAllRowsBadColumnRef (ref : String) : I18nMessage :=
  ⟨"excel.all_rows.badColumnRef", [("ref", ref)]⟩

def msgInvalidFormula (detail : String) : I18nMessage :=
  ⟨"excel.invalidFormula", [("error", detail)]⟩

/-- A failure inside an evaluation pipeline: either a `UserVisibleError`
carrying an i18n message, or any other Python exception carrying its
`str()` form. -/
inductive EvalErr : Type
  | userVisible (m : I18nMessage) : EvalErr
  | exn (s : String) : EvalErr
deriving DecidableEq, Repr

/-! ## The compiled-formula capability (opaque collaborator) -/

/-- A resolved range descriptor from the `formulas` library, with 1-based
inclusive bounds (`r1`/`r2` rows, `n1`/`n2` columns) and the textual
reference. The library hands rows back as digit strings and columns as
ints; both are modelled as integers here (the one-row path parses the row
strings with `int(...)`, the all-rows path compares them with `"1"`). -/
structure XRange : Type where
  r1 : Int
  r2 : Int
  n1 : Int
  n2 : Int
  ref : String
deriving DecidableEq, Repr

structure RangeObj : Type where
  ranges : List XRange
deriving DecidableEq, Repr

/-- A formula argument: a scalar cell value or a list of cell values. -/
inductive Arg : Type
  | scalar (v : Value) : Arg
  | listA (vs : List Value) : Arg
deriving DecidableEq, Repr

/-- What invoking the compiled formula can signal: a `DispatcherError`
wrapping `NotImplementedError` (with the function name), or any other
exception. -/
inductive RunErr : Type
  | notImplemented (name : String) : RunErr
  | other (s : String) : RunErr
deriving DecidableEq, Repr

/-- The compiled formula object: its declared inputs (token to resolved
range object, `none` when the token did not resolve) plus its behaviour
when invoked. -/
structure Code : Type where
  inputs : List (String × Option RangeObj)
  run : List Arg → Except RunErr Value

/-- `flatten_single_element_lists` applied to a slice's cell list. -/
def flattenSingle (vs : List Value) : Arg :=
  match vs with
  | [v] => .scalar v
  | _ => .listA vs

/-- `eval_excel` (formula.py lines 193-215): run the code; translate a
`DispatcherError` wrapping `NotImplementedError` into a `UserVisibleError`
and re-raise anything else. -/
def eval_excel (code : Code) (args : List Arg) : Except EvalErr Value :=
  match code.run args with
  | .error (.notImplemented name) => .error (.userVisible (msgFunctionNotImplemented name))
  | .error (.other s) => .error (.exn s)
  | .ok v => .ok v

/-! ## eval_excel_one_row -/

/-- The bound check of `eval_excel_one_row` on the 0-based converted
bounds (`r1 = int(range.r1) - 1`, `r2 = int(range.r2)`, etc.). A `r2`
beyond the table's row count is deliberately allowed. -/
def oneRowBad (t : Table) (rg : XRange) : Prop :=
  rg.r1 - 1 < 0 ∨ rg.n1 - 1 < 0 ∨ rg.n2 > (t.nCols : Int)
    ∨ rg.r1 - 1 ≥ rg.r2 ∨ rg.n1 - 1 ≥ rg.n2

instance (t : Table) (rg : XRange) : Decidable (oneRowBad t rg) := by
  unfold oneRowBad; infer_instance

/-- `table.iloc[r1:r2, c1:c2].values.flat`: the row-major cell values of
the slice; row bounds beyond the table are silently clamped. -/
def tableSliceFlat (t : Table) (r1 r2 c1 c2 : Nat) : List Value :=
  ((List.range t.nRows).filter fun i => decide (r1 ≤ i) && decide (i < r2)).flatMap
    fun i => ((List.range t.nCols).filter fun j => decide (c1 ≤ j) && decide (j < c2)).map
      fun j => tableCell t i j

/-- The argument-building loop of `eval_excel_one_row`. -/
def resolveOneRowArgs (t : Table) : List (String × Option RangeObj) → Except EvalErr (List Arg)
  | [] => .ok []
  | (token, none) :: _ => .error (.userVisible (msgInvalidCellRange token))
  | (_, some ob) :: rest =>
    match ob.ranges with
    | [rg] =>
      if oneRowBad t rg then .error (.userVisible (msgOneRowBadRef rg.ref))
      else
        match resolveOneRowArgs t rest with
        | .error e => .error e
        | .ok args =>
          .ok (flattenSingle (tableSliceFlat t (rg.r1 - 1).toNat rg.r2.toNat
            (rg.n1 - 1).toNat rg.n2.toNat) :: args)
    | _ => .error (.userVisible msgNotRectangular)

/-- `eval_excel_one_row` (formula.py lines 218-266). -/
def eval_excel_one_row (code : Code) (t : Table) : Except EvalErr Value :=
  match resolveOneRowArgs t code.inputs with
  | .error e => .error e
  | .ok args => eval_excel code args

/-! ## eval_excel_all_rows -/

/-- `list(range(c1, c2))` for a validated all-rows range. -/
def colRange (rg : XRange) : List Nat :=
  List.range' (rg.n1 - 1).toNat (rg.n2 - (rg.n1 - 1)).toNat

/-- The inner `for rng in ranges` loop of `eval_excel_all_rows`: every
range (there may be several per token — no rectangularity check here!)
must reference row 1 only and lie within the columns. -/
def resolveTokenRanges (ncols : Nat) : List XRange → Except EvalErr (List (List Nat))
  | [] => .ok []
  | rg :: rest =>
    if rg.r1 ≠ 1 ∨ rg.r2 ≠ 1 then .error (.userVisible msgFirstRowReference)
    else if rg.n1 - 1 < 0 ∨ rg.n2 > (ncols : Int) ∨ rg.n1 - 1 ≥ rg.n2 then
      .error (.userVisible (msgAllRowsBadColumnRef rg.ref))
    else
      match resolveTokenRanges ncols rest with
      | .error e => .error e
      | .ok cols => .ok (colRange rg :: cols)

/-- The outer token loop of `eval_excel_all_rows`, accumulating `col_idx`. -/
def resolveAllRowsCols (t : Table) : List (String × Option RangeObj) → Except EvalErr (List (List Nat))
  | [] => .ok []
  | (token, none) :: _ => .error (.userVisible (msgBadCellReference token))
  | (_, some ob) :: rest =>
    match resolveTokenRanges t.nCols ob.ranges with
    | .error e => .error e
    | .ok cols =>
      match resolveAllRowsCols t rest with
      | .error e => .error e
      | .ok cols2 => .ok (cols ++ cols2)

/-- The per-row argument list in all-rows mode. -/
def rowArgsAllRows (t : Table) (colIdx : List (List Nat)) (i : Nat) : List Arg :=
  colIdx.map fun cols => flattenSingle (cols.map fun j => tableCell t i j)

/-- The per-row evaluation loop of `eval_excel_all_rows`; the first
failing row aborts the whole evaluation. -/
def evalRowsExcel (code : Code) (t : Table) (colIdx : List (List Nat)) :
    List Nat → Except EvalErr (List Value)
  | [] => .ok []
  | i :: rest =>
    match eval_excel code (rowArgsAllRows t colIdx i) with
    | .error e => .error e
    | .ok v =>
      match evalRowsExcel code t colIdx rest with
      | .error e => .error e
      | .ok vs => .ok (v :: vs)

/-- `pd.Series(list)`: pandas dtype inference on a raw Python list.
Numbers (with optional nulls) give a numeric column; anything else is an
object column. -/
def mkSeries (vs : List Value) : Series :=
  if vs.all (fun v => decide (v = Value.null) || isNumericValue v)
      && vs.any isNumericValue then
    .numeric (vs.map valueNum)
  else
    .obj vs

/-- `eval_excel_all_rows` (formula.py lines 269-318). -/
def eval_excel_all_rows (code : Code) (t : Table) : Except EvalErr Series :=
  match resolveAllRowsCols t code.inputs with
  | .error e => .error e
  | .ok colIdx =>
    match evalRowsExcel code t colIdx (List.range t.nRows) with
    | .error e => .error e
    | .ok vs => .ok (mkSeries vs)

/-! ## excel_formula -/

/-- `excel_formula` (formula.py lines 321-342). `parseExcel` is the opaque
`Parser().ast(formula)[1].compile()` capability; any exception it raises
is converted to the `InvalidFormula` message. In one-row mode the result
column is built directly (`pd.Series([value] + [None] * (len(table) - 1))`)
with no sanitize/autocast pass. -/
def excel_formula (parseExcel : String → Except String Code)
    (t : Table) (formula : String) (allRows : Bool) : Except EvalErr Series :=
  match parseExcel formula with
  | .error e => .error (.userVisible (msgInvalidFormula e))
  | .ok code =>
    if allRows then
      match eval_excel_all_rows code t with
      | .error e => .error e
      | .ok s =>
        match sanitize_series s with
        | .error e => .error (.exn e)
        | .ok s2 => .ok (autocast_series_dtype s2)
    else
      match eval_excel_one_row code t with
      | .error e => .error e
      | .ok v => .ok (mkSeries (v :: List.replicate (t.nRows - 1) Value.null))

/-! ## _prepare_table_for_excel_formulas -/

/-- Nanoseconds in one day (`np.timedelta64(1, "D")`). -/
def oneDayNs : Int := 86400000000000

/-- `np.datetime64("1899-12-30")` in ns since the Unix epoch
(25569 days before 1970-01-01). -/
def excel1900ZeroNs : Int := -25569 * 86400000000000

/-- `np.datetime64("1900-01-01")` in ns since the Unix epoch
(25567 days before 1970-01-01). -/
def excel1900MinNs : Int := -25567 * 86400000000000

/-- The spreadsheet date serial of one instant: instants at or after
1900-01-01 map to `(instant - 1899-12-30) / one_day`; everything earlier
stays null (the mask `datetime_table >= excel_1900_min_date` is false). -/
def dtSerial (ns : Int) : Option Rat :=
  if excel1900MinNs ≤ ns then
    some (((ns - excel1900ZeroNs : Int) : Rat) / ((oneDayNs : Int) : Rat))
  else
    none

/-- `_prepare_table_for_excel_formulas` (formula.py lines 360-392). -/
def prepareTableForExcelFormulas (t : Table) : Table :=
  if t.cols.all (fun c =>
      match c.2 with
      | .datetime _ => false
      | _ => true) then
    t
  else
    ⟨t.cols.map fun c =>
      match c.2 with
      | .datetime vs => (c.1, Series.numeric (vs.map fun o => o.bind dtSerial))
      | _ => c⟩

/-! ## python_formula -/

/-- Insert into a Python dict modelled as an ordered association list:
an existing key keeps its position but is rebound; a new key is appended. -/
def dictInsert (d : List (String × Value)) (k : String) (v : Value) :
    List (String × Value) :=
  if d.any (fun pr => pr.1 == k) then
    d.map fun pr => if pr.1 == k then (k, v) else pr
  else
    d ++ [(k, v)]

/-- `dict(zip(ks, vs))`: later duplicate keys win. -/
def dictOfZip (ks : List String) (vs : List Value) : List (String × Value) :=
  (ks.zip vs).foldl (fun d pr => dictInsert d pr.1 pr.2) []

/-- Dict lookup (first entry with the key; keys are unique by construction). -/
def dictGet (d : List (String × Value)) (k : String) : Option Value :=
  (d.find? fun pr => pr.1 == k).map Prod.snd

/-- The column names bound in the evaluation environment: spaces replaced
by underscores. -/
def pyColnames (t : Table) : List String :=
  t.cols.map fun c => c.1.replace " " "_"

/-- The per-row locals dict `dict(zip(colnames, row))`. -/
def pyRowEnv (colnames : List String) (row : List Value) : List (String × Value) :=
  dictOfZip colnames row

/-- The per-row loop of `python_formula`; the first raising row aborts. -/
def evalPyRows (evalRow : List (String × Value) → Except EvalErr Value)
    (colnames : List String) (t : Table) : List Nat → Except EvalErr (List Value)
  | [] => .ok []
  | i :: rest =>
    match evalRow (pyRowEnv colnames (tableRow t i)) with
    | .error e => .error e
    | .ok v =>
      match evalPyRows evalRow colnames t rest with
      | .error e => .error e
      | .ok vs => .ok (v :: vs)

/-- `python_formula` (formula.py lines 165-182). `compilePy` is the opaque
`compile(formula, "<string>", "eval")` plus restricted-environment `eval`
capability: it yields a per-row evaluator from the locals dict, and its
failures are either `UserVisibleError` (disabled builtins) or a generic
exception. The raw result column is an object Series. -/
def python_formula
    (compilePy : String → Except String (List (String × Value) → Except EvalErr Value))
    (t : Table) (formula : String) : Except EvalErr Series :=
  match compilePy formula with
  | .error s => .error (.exn s)
  | .ok evalRow =>
    match evalPyRows evalRow (pyColnames t) t (List.range t.nRows) with
    | .error e => .error e
    | .ok vals =>
      match sanitize_series (.obj vals) with
      | .error s => .error (.exn s)
      | .ok s2 => .ok (autocast_series_dtype s2)

/-! ## _get_output_column -/

/-- Decimal digit character. -/
def decDigit (d : Nat) : Char := Char.ofNat (48 + d)

/-- Decimal digits of a natural number, most significant first; the fuel
only bounds the recursion depth (any fuel above the value works, see
`natReprAuxFuel_congr`). -/
def natReprAuxFuel : Nat → Nat → List Char
  | 0, _ => []
  | fuel + 1, n =>
    if n < 10 then [decDigit n]
    else natReprAuxFuel fuel (n / 10) ++ [decDigit (n % 10)]

/-- Decimal representation of a natural number (the text `str(n)`
appended by the f-string in `_get_output_column`). -/
def natRepr (n : Nat) : String := String.mk (natReprAuxFuel (n + 1) n)

/-- The `while f"{out_column}{n}" in table.columns: n += 1` loop,
fuelled (the fuel used below always suffices). -/
def findSuffix (names : List String) (oc : String) : Nat → Nat → Nat
  | 0, n => n
  | fuel + 1, n =>
    if (oc ++ natRepr n) ∈ names then findSuffix names oc fuel (n + 1) else n

/-- `_get_output_column` (formula.py lines 345-357). -/
def getOutputColumn (t : Table) (outColumn : String) : String :=
  let oc := if outColumn = "" then "result" else outColumn
  let names := t.cols.map Prod.fst
  if oc ∈ names then oc ++ natRepr (findSuffix names oc (names.length + 1) 0)
  else oc

/-! ## render -/

/-- Python `str.strip()`: drop leading and trailing whitespace
(structurally recursive, unlike `String.trim`, so that concrete render
calls evaluate inside the kernel). -/
def pyStrip (s : String) : String :=
  String.mk (((s.data.dropWhile Char.isWhitespace).reverse.dropWhile Char.isWhitespace).reverse)

/-- `table[out_column] = newcol`: overwrite an existing column in place or
append a new one. -/
def setColumn (t : Table) (name : String) (s : Series) : Table :=
  if t.cols.any (fun c => c.1 == name) then
    ⟨t.cols.map fun c => if c.1 == name then (name, s) else c⟩
  else
    ⟨t.cols ++ [(name, s)]⟩

/-- The configuration seen by `render` (post-migration: `syntax` is a
string; the Python field name `syntax` is a reserved word here, so the
field is called `stx`). -/
structure RenderParams : Type where
  stx : String
  formula_excel : String
  formula_python : String
  all_rows : Bool
  out_column : String
deriving DecidableEq, Repr

/-- What `render` can return: a table, an i18n message
(`e.i18n_message` of a caught `UserVisibleError`), the plain `str(e)` of a
caught generic exception (Python path only), or Python `None` when there
is no input table. -/
inductive RenderResult : Type
  | table (t : Table) : RenderResult
  | message (m : I18nMessage) : RenderResult
  | text (s : String) : RenderResult
  | noneResult : RenderResult
deriving DecidableEq, Repr

/-- `render` (formula.py lines 395-423), with the two opaque compiler
capabilities passed explicitly. The outer `Except String` layer is the
process boundary: a `.error` is an exception escaping `render` (in the
excel branch only non-`UserVisibleError` exceptions can do so). -/
def render (parseExcel : String → Except String Code)
    (compilePy : String → Except String (List (String × Value) → Except EvalErr Value))
    (tbl : Option Table) (p : RenderParams) : Except String RenderResult :=
  match tbl with
  | none => .ok .noneResult
  | some table =>
    if p.stx = "excel" then
      let inputTable := prepareTableForExcelFormulas table
      if pyStrip p.formula_excel = "" then .ok (.table table)
      else
        match excel_formula parseExcel inputTable p.formula_excel p.all_rows with
        | .error (.userVisible m) => .ok (.message m)
        | .error (.exn s) => .error s
        | .ok newcol => .ok (.table (setColumn table (getOutputColumn table p.out_column) newcol))
    else
      let formula := pyStrip p.formula_python
      if formula = "" then .ok (.table table)
      else
        match python_formula compilePy table formula with
        | .error (.userVisible m) => .ok (.message m)
        | .error (.exn s) => .ok (.text s)
        | .ok newcol => .ok (.table (setColumn table (getOutputColumn table p.out_column) newcol))

/-! ## migrate_params -/

/-- The stored `syntax` parameter: legacy integer or current string. -/
inductive SynVal : Type
  | int (i : Int) : SynVal
  | str (s : String) : SynVal
deriving DecidableEq, Repr

/-- The stored configuration: the `syntax` field plus the other fields,
carried through `{**params, ...}` untouched. -/
structure StoredParams : Type where
  stx : SynVal
  rest : List (String × String)
deriving DecidableEq, Repr

/-- `_migrate_params_v0_to_v1`: `["excel", "python"][params["syntax"]]`.
Python list indexing accepts -1 and -2 from the right and raises
`IndexError` otherwise. -/
def migrateParamsV0ToV1 (p : StoredParams) : Except String StoredParams :=
  match p.stx with
  | .int i =>
    if i = 0 then .ok { p with stx := .str "excel" }
    else if i = 1 then .ok { p with stx := .str "python" }
    else if i = -1 then .ok { p with stx := .str "python" }
    else if i = -2 then .ok { p with stx := .str "excel" }
    else .error "IndexError: list index out of range"
  | .str _ => .ok p

/-- `migrate_params` (formula.py lines 435-438). -/
def migrate_params (p : StoredParams) : Except String StoredParams :=
  match p.stx with
  | .int _ => migrateParamsV0ToV1 p
  | .str _ => .ok p

/-! ## List helper lemmas -/

theorem idxOf_lt_length {α : Type} [DecidableEq α] {a : α} {l : List α} (h : a ∈ l) :
    idxOf a l < l.length := by
  induction l with
  | nil => cases h
  | cons b bs ih =>
    by_cases hb : b = a
    · simp [idxOf, hb]
    · have ha : a ∈ bs := by
        rcases List.mem_cons.mp h with h' | h'
        · exact absurd h'.symm hb
        · exact h'
      simp only [idxOf, if_neg hb, List.length_cons]
      exact Nat.succ_lt_succ (ih ha)

theorem getD_idxOf {α : Type} [DecidableEq α] {a : α} {l : List α} (h : a ∈ l) (d : α) :
    l.getD (idxOf a l) d = a := by
  induction l with
  | nil => cases h
  | cons b bs ih =>
    by_cases hb : b = a
    · simp [idxOf, hb]
    · have ha : a ∈ bs := by
        rcases List.mem_cons.mp h with h' | h'
        · exact absurd h'.symm hb
        · exact h'
      simp only [idxOf, if_neg hb, List.getD_cons_succ]
      exact ih ha

theorem idxOf_getD_nodup {α : Type} [DecidableEq α] {l : List α} (h : l.Nodup)
    {j : Nat} (hj : j < l.length) (d : α) : idxOf (l.getD j d) l = j := by
  induction l generalizing j with
  | nil => simp at hj
  | cons b bs ih =>
    rcases List.nodup_cons.mp h with ⟨hb, hbs⟩
    cases j with
    | zero => simp [idxOf, List.getD_cons_zero]
    | succ j =>
      have hj' : j < bs.length := by simpa using hj
      have hmem : bs.getD j d ∈ bs := by
        rw [List.getD_eq_getElem _ _ hj']
        exact List.getElem_mem _
      have hbne : ¬ b = bs.getD j d := by
        intro e
        rw [← e] at hmem
        exact hb hmem
      simp only [List.getD_cons_succ, idxOf]
      rw [if_neg hbne, ih hbs hj']

theorem idxOf_map {α β : Type} [DecidableEq α] [DecidableEq β] {f : α → β}
    (hf : ∀ x y, f x = f y → x = y) (a : α) (l : List α) :
    idxOf (f a) (l.map f) = idxOf a l := by
  induction l with
  | nil => rfl
  | cons b bs ih =>
    simp only [List.map_cons, idxOf]
    by_cases hb : b = a
    · rw [if_pos (congrArg f hb), if_pos hb]
    · rw [if_neg fun e => hb (hf _ _ e), if_neg hb, ih]

theorem idxOf_range {i n : Nat} (h : i < n) : idxOf i (List.range n) = i := by
  induction n generalizing i with
  | zero => omega
  | succ n ih =>
    rw [List.range_succ_eq_map]
    cases i with
    | zero => simp [idxOf]
    | succ i =>
      simp only [idxOf]
      rw [if_neg (by omega)]
      simp only [← Nat.succ_eq_add_one]
      rw [idxOf_map (fun x y e => Nat.succ_injective e) i (List.range n),
        ih (by omega)]

theorem mem_uniqList {α : Type} [DecidableEq α] {a : α} {l : List α} :
    a ∈ uniqList l ↔ a ∈ l := by
  induction l with
  | nil => simp [uniqList]
  | cons b bs ih =>
    simp only [uniqList]
    by_cases hb : b ∈ bs
    · rw [if_pos hb, ih]
      constructor
      · exact fun h => List.mem_cons_of_mem _ h
      · intro h
        rcases List.mem_cons.mp h with rfl | h'
        · exact hb
        · exact h'
    · rw [if_neg hb]
      simp [List.mem_cons, ih]

theorem uniqList_nodup {α : Type} [DecidableEq α] (l : List α) : (uniqList l).Nodup := by
  induction l with
  | nil => simp [uniqList]
  | cons b bs ih =>
    simp only [uniqList]
    by_cases hb : b ∈ bs
    · rw [if_pos hb]; exact ih
    · rw [if_neg hb]
      exact List.nodup_cons.mpr ⟨fun h => hb (mem_uniqList.mp h), ih⟩

theorem uniqList_eq_nil {α : Type} [DecidableEq α] {l : List α} :
    uniqList l = [] ↔ l = [] := by
  induction l with
  | nil => simp [uniqList]
  | cons b bs ih =>
    simp only [uniqList]
    by_cases hb : b ∈ bs
    · rw [if_pos hb]
      constructor
      · intro h
        exact absurd (ih.mp h ▸ hb) (List.not_mem_nil b)
      · intro h
        cases h
    · rw [if_neg hb]
      simp

theorem map_getD_range {α : Type} (l : List α) (d : α) :
    (List.range l.length).map (fun i => l.getD i d) = l := by
  induction l with
  | nil => simp
  | cons a as ih =>
    rw [List.length_cons, List.range_succ_eq_map, List.map_cons, List.map_map]
    have he : ((fun i => (a :: as).getD i d) ∘ Nat.succ) = fun i => as.getD i d := by
      funext i
      simp [Function.comp, List.getD_cons_succ]
    rw [he, ih]
    simp [List.getD_cons_zero]

/-! ## Lemmas about category pruning -/

theorem usedIdxs_nodup (labels : List Value) (codes : List (Option Nat)) :
    (usedIdxsOf labels codes).Nodup :=
  List.Nodup.filter _ (List.nodup_range _)

theorem mem_usedIdxs {labels : List Value} {codes : List (Option Nat)} {i : Nat} :
    i ∈ usedIdxsOf labels codes ↔ i < labels.length ∧ some i ∈ codes := by
  simp [usedIdxsOf, List.mem_filter, List.mem_range]

theorem pruneCat_fst_length (labels : List Value) (codes : List (Option Nat)) :
    (pruneCat labels codes).1.length = (usedIdxsOf labels codes).length := by
  simp [pruneCat]

theorem pruneCat_codes_lt {labels : List Value} {codes : List (Option Nat)}
    (hwf : ∀ c ∈ codes, ∀ i, c = some i → i < labels.length) :
    ∀ c ∈ (pruneCat labels codes).2, ∀ i, c = some i → i < (pruneCat labels codes).1.length := by
  intro c hc i hi
  simp only [pruneCat, List.mem_map] at hc
  rcases hc with ⟨c0, hc0, rfl⟩
  cases c0 with
  | none => simp at hi
  | some i0 =>
    simp only [Option.map_some'] at hi
    have hi' : idxOf i0 (usedIdxsOf labels codes) = i := by
      injection hi
    have hmem : i0 ∈ usedIdxsOf labels codes :=
      mem_usedIdxs.mpr ⟨hwf _ hc0 _ rfl, hc0⟩
    rw [pruneCat_fst_length, ← hi']
    exact idxOf_lt_length hmem

theorem pruneCat_all_used (labels : List Value) (codes : List (Option Nat)) :
    ∀ j, j < (pruneCat labels codes).1.length → some j ∈ (pruneCat labels codes).2 := by
  intro j hj
  rw [pruneCat_fst_length] at hj
  have hmem : (usedIdxsOf labels codes).getD j 0 ∈ usedIdxsOf labels codes := by
    rw [List.getD_eq_getElem _ _ hj]
    exact List.getElem_mem _
  have hcodes : some ((usedIdxsOf labels codes).getD j 0) ∈ codes :=
    (mem_usedIdxs.mp hmem).2
  simp only [pruneCat, List.mem_map]
  refine ⟨some ((usedIdxsOf labels codes).getD j 0), hcodes, ?_⟩
  simp only [Option.map_some']
  exact congrArg some (idxOf_getD_nodup (usedIdxs_nodup labels codes) hj 0)

theorem pruneCat_id {labels : List Value} {codes : List (Option Nat)}
    (hwf : ∀ c ∈ codes, ∀ i, c = some i → i < labels.length)
    (hused : ∀ j, j < labels.length → some j ∈ codes) :
    pruneCat labels codes = (labels, codes) := by
  have husedIdxs : usedIdxsOf labels codes = List.range labels.length := by
    apply List.filter_eq_self.mpr
    intro a ha
    simp only [decide_eq_true_eq]
    exact hused a (List.mem_range.mp ha)
  simp only [pruneCat, husedIdxs]
  rw [Prod.mk.injEq]
  constructor
  · exact map_getD_range labels Value.null
  · have he : codes.map (Option.map fun i => idxOf i (List.range labels.length))
        = codes.map id := by
      apply List.map_congr_left
      intro c hc
      cases c with
      | none => rfl
      | some i =>
        simp only [Option.map_some', Option.map_id, id_eq]
        rw [idxOf_range (hwf _ hc _ rfl)]
    rw [he, List.map_id]

/-! ## The shape invariant of sanitize output -/

/-- What `sanitize_series` guarantees about its output: numeric/datetime
columns, object columns of strings and nulls, or categoricals whose labels
are strings, all used, with in-range codes (empty label sets come with
empty row sets, reflecting the remap branch's length change). -/
def SanOut : Series → Prop
  | .obj vs => ∀ v ∈ vs, v = Value.null ∨ ∃ s, v = Value.str s
  | .numeric _ => True
  | .datetime _ => True
  | .cat labels codes =>
    (labels = [] ∧ codes = []) ∨
    (labels ≠ [] ∧ (∀ l ∈ labels, ∃ s, l = Value.str s) ∧
      (∀ c ∈ codes, ∀ i, c = some i → i < labels.length) ∧
      (∀ j, j < labels.length → some j ∈ codes))

theorem objNormalize_mem {vs : List Value} {v : Value} (h : v ∈ objNormalize vs) :
    v = Value.null ∨ ∃ s, v = Value.str s := by
  simp only [objNormalize, List.mem_map] at h
  rcases h with ⟨w, _, rfl⟩
  by_cases hw : w = Value.null
  · left
    simp [hw]
  · right
    exact ⟨w.toDisplay, by simp [hw]⟩

theorem objNormalize_id {vs : List Value}
    (h : ∀ v ∈ vs, v = Value.null ∨ ∃ s, v = Value.str s) : objNormalize vs = vs := by
  have he : vs.map (fun v => if v = Value.null then Value.null else Value.str v.toDisplay)
      = vs.map id := by
    apply List.map_congr_left
    intro v hv
    rcases h v hv with rfl | ⟨s, rfl⟩
    · simp
    · simp [Value.toDisplay]
  rw [objNormalize, he, List.map_id]

theorem remapCat_sanOut {labels2 : List Value} {codes2 : List (Option Nat)} {z : Series}
    (h : remapCat labels2 codes2 = .ok z) : SanOut z := by
  simp only [remapCat] at h
  by_cases hg : (uniqList (catSelected labels2 codes2)).length
      ≠ (uniqList (catStrCats labels2)).length
  · rw [if_pos hg] at h
    cases h
  · rw [if_neg hg] at h
    push_neg at hg
    injection h with h'
    subst h'
    by_cases hu : uniqList (catStrCats labels2) = []
    · left
      constructor
      · simp [hu]
      · have hsc : catStrCats labels2 = [] := uniqList_eq_nil.mp hu
        simp [catSelected, hsc]
    · right
      refine ⟨by simpa using hu, ?_, ?_, ?_⟩
      · intro l hl
        rcases List.mem_map.mp hl with ⟨s, _, rfl⟩
        exact ⟨s, rfl⟩
      · intro c hc i hi
        rcases List.mem_map.mp hc with ⟨v, hv, rfl⟩
        have hi' : idxOf v (uniqList (catSelected labels2 codes2)) = i := by
          injection hi
        have hvmem : v ∈ uniqList (catSelected labels2 codes2) := mem_uniqList.mpr hv
        rw [List.length_map, ← hg, ← hi']
        exact idxOf_lt_length hvmem
      · intro j hj
        rw [List.length_map, ← hg] at hj
        have hmem : (uniqList (catSelected labels2 codes2)).getD j 0
            ∈ uniqList (catSelected labels2 codes2) := by
          rw [List.getD_eq_getElem _ _ hj]
          exact List.getElem_mem _
        refine List.mem_map.mpr ⟨(uniqList (catSelected labels2 codes2)).getD j 0,
          mem_uniqList.mp hmem, ?_⟩
        exact congrArg some (idxOf_getD_nodup (uniqList_nodup _) hj 0)

theorem sanitizeCatPruned_sanOut {labels2 : List Value} {codes2 : List (Option Nat)}
    {z : Series}
    (hin : ∀ c ∈ codes2, ∀ i, c = some i → i < labels2.length)
    (hused : ∀ j, j < labels2.length → some j ∈ codes2)
    (h : sanitizeCatPruned labels2 codes2 = .ok z) : SanOut z := by
  simp only [sanitizeCatPruned] at h
  by_cases h1 : labels2 ≠ [] ∧ labels2.all isNumericValue = true
  · rw [if_pos h1] at h
    injection h with h'
    subst h'
    trivial
  · rw [if_neg h1] at h
    by_cases h2 : labels2 ≠ [] ∧ labels2.all isStrValue = true
    · rw [if_pos h2] at h
      injection h with h'
      subst h'
      refine Or.inr ⟨h2.1, ?_, hin, hused⟩
      intro l hl
      have hl2 := List.all_eq_true.mp h2.2 l hl
      cases l with
      | str s => exact ⟨s, rfl⟩
      | null => simp [isStrValue] at hl2
      | num q => simp [isStrValue] at hl2
      | dt ns => simp [isStrValue] at hl2
      | obj o => simp [isStrValue] at hl2
    · rw [if_neg h2] at h
      exact remapCat_sanOut h

/-- Lemma A: every successful sanitize of a well-formed series yields a
series of the invariant shape. -/
theorem sanitize_series_sanOut {x z : Series} (hwf : seriesWF x = true)
    (h : sanitize_series x = .ok z) : SanOut z := by
  cases x with
  | numeric vs =>
    injection h with h'
    subst h'
    trivial
  | datetime vs =>
    injection h with h'
    subst h'
    trivial
  | obj vs =>
    injection h with h'
    subst h'
    intro v hv
    exact objNormalize_mem hv
  | cat labels codes =>
    have hwf' : ∀ c ∈ codes, ∀ i, c = some i → i < labels.length := by
      simp only [seriesWF, List.all_eq_true] at hwf
      intro c hc i hi
      have := hwf c hc
      subst hi
      simpa using this
    exact sanitizeCatPruned_sanOut (pruneCat_codes_lt hwf') (pruneCat_all_used labels codes) h

/-- Lemma B: sanitize is the identity on series of the invariant shape. -/
theorem sanitize_series_fix {z : Series} (h : SanOut z) : sanitize_series z = .ok z := by
  cases z with
  | numeric vs => rfl
  | datetime vs => rfl
  | obj vs =>
    simp only [sanitize_series]
    rw [objNormalize_id h]
  | cat labels codes =>
    simp only [SanOut] at h
    rcases h with ⟨rfl, rfl⟩ | ⟨hne, hstr, hin, hused⟩
    · decide
    · simp only [sanitize_series]
      rw [pruneCat_id hin hused]
      simp only [sanitizeCatPruned]
      have hnum : ¬(labels ≠ [] ∧ labels.all isNumericValue = true) := by
        rintro ⟨-, hall⟩
        rcases List.exists_mem_of_ne_nil labels hne with ⟨l, hl⟩
        rcases hstr l hl with ⟨s, rfl⟩
        have := List.all_eq_true.mp hall _ hl
        simp [isNumericValue] at this
      have hstrall : labels ≠ [] ∧ labels.all isStrValue = true := by
        refine ⟨hne, List.all_eq_true.mpr fun l hl => ?_⟩
        rcases hstr l hl with ⟨s, rfl⟩
        rfl
      rw [if_neg hnum, if_pos hstrall]

/-- Lemma T: on invariant-shaped input, autocast either does nothing or
un-categorizes / numerifies. -/
theorem autocast_fix_or_numeric {z : Series} (h : SanOut z) :
    autocast_series_dtype z = z ∨ ∃ ns, autocast_series_dtype z = Series.numeric ns := by
  cases z with
  | numeric vs => exact Or.inl rfl
  | datetime vs => exact Or.inl rfl
  | obj vs =>
    simp only [autocast_series_dtype]
    by_cases h1 : vs.all (fun v => decide (v = Value.null) || decide (v = Value.str "")) = true
    · rw [if_pos h1]
      exact Or.inl rfl
    · rw [if_neg h1]
      cases h2 : allToNumeric vs with
      | some ns => exact Or.inr ⟨ns, rfl⟩
      | none =>
        have h3 : vs.all (fun v => decide (v = Value.null) || isStrValue v) = true := by
          rw [List.all_eq_true]
          intro v hv
          rcases h v hv with rfl | ⟨s, rfl⟩ <;> simp [isStrValue]
        rw [if_pos h3]
        exact Or.inl rfl
  | cat labels codes =>
    simp only [autocast_series_dtype]
    by_cases h1 : codes.all (fun c =>
        decide (catRowValue labels c = Value.null)
          || decide (catRowValue labels c = Value.str "")) = true
    · rw [if_pos h1]
      exact Or.inl rfl
    · rw [if_neg h1]
      cases h2 : allToNumeric (codes.map (catRowValue labels)) with
      | some ns => exact Or.inr ⟨ns, rfl⟩
      | none => exact Or.inl rfl

/-- The composite: the result of one sanitize-autocast pass is a fixed
point of the pipeline. -/
theorem sanitizeAutocast_post {x z : Series} (hwf : seriesWF x = true)
    (h : sanitizeAutocast x = .ok z) : sanitizeAutocast z = .ok z := by
  unfold sanitizeAutocast at h
  cases hs : sanitize_series x with
  | error e =>
    rw [hs] at h
    cases h
  | ok z0 =>
    rw [hs] at h
    injection h with h'
    subst h'
    have hz0 := sanitize_series_sanOut hwf hs
    rcases autocast_fix_or_numeric hz0 with hfix | ⟨ns, hn⟩
    · rw [hfix]
      unfold sanitizeAutocast
      rw [sanitize_series_fix hz0]
      show Except.ok (autocast_series_dtype z0) = Except.ok z0
      rw [hfix]
    · rw [hn]
      rfl

/-! ## Claim C7: sanitize-then-autocast is idempotent -/

/-- **C7**: for every (well-formed) column `x`, the sanitize-then-autocast
pipeline is idempotent: `autocast(sanitize(autocast(sanitize(x))))` equals
`autocast(sanitize(x))`. The `Except`-level `bind` threads the pipeline's
only failure mode (the `ValueError` of the categorical remap branch), which
propagates identically on both sides. -/
theorem sanitize_autocast_idempotent (x : Series) (hwf : seriesWF x = true) :
    (sanitizeAutocast x).bind sanitizeAutocast = sanitizeAutocast x := by
  cases h : sanitizeAutocast x with
  | error e => rfl
  | ok z =>
    show sanitizeAutocast z = Except.ok z
    exact sanitizeAutocast_post hwf h

theorem sanitize_autocast_idempotent_witness :
    seriesWF (Series.obj [Value.num 1, Value.str "a", Value.null]) = true ∧
    (sanitizeAutocast (Series.obj [Value.num 1, Value.str "a", Value.null])).bind sanitizeAutocast
      = sanitizeAutocast (Series.obj [Value.num 1, Value.str "a", Value.null]) :=
  ⟨by decide, sanitize_autocast_idempotent (Series.obj [Value.num 1, Value.str "a", Value.null]) (by decide)⟩

/-! ## Claim C9: parameter migration -/

/-- **C9**: `migrate_params` rewrites a legacy numeric `syntax` field
(0 to "excel", 1 to "python") to its string form; it is the identity on
any configuration whose `syntax` is already a string, and running it twice
equals running it once (on every configuration, the `IndexError` of an
out-of-range legacy value propagating identically on both sides). -/
theorem migrate_params_spec :
    (∀ r, migrate_params ⟨SynVal.int 0, r⟩ = Except.ok ⟨SynVal.str "excel", r⟩) ∧
    (∀ r, migrate_params ⟨SynVal.int 1, r⟩ = Except.ok ⟨SynVal.str "python", r⟩) ∧
    (∀ p s, p.stx = SynVal.str s → migrate_params p = Except.ok p) ∧
    (∀ p, (migrate_params p).bind migrate_params = migrate_params p) := by
  refine ⟨fun r => rfl, fun r => rfl, ?_, ?_⟩
  · intro p s h
    cases p with
    | mk stx rest =>
      cases stx with
      | int i => cases h
      | str s' => rfl
  · intro p
    cases p with
    | mk stx rest =>
      cases stx with
      | str s => rfl
      | int i =>
        show (migrateParamsV0ToV1 ⟨SynVal.int i, rest⟩).bind migrate_params
          = migrateParamsV0ToV1 ⟨SynVal.int i, rest⟩
        simp only [migrateParamsV0ToV1]
        split_ifs <;> rfl

theorem migrate_params_spec_witness :
    migrate_params ⟨SynVal.str "excel", [("k", "v")]⟩
      = Except.ok ⟨SynVal.str "excel", [("k", "v")]⟩ :=
  migrate_params_spec.2.2.1 ⟨SynVal.str "excel", [("k", "v")]⟩ "excel" rfl

/-! ## Claim C10: duplicate identifiers shadow left-to-right -/

theorem find_map_upd {d : List (String × Value)} {k : String} {v : Value}
    (h : d.any (fun pr => pr.1 == k) = true) :
    (d.map fun pr => if pr.1 == k then (k, v) else pr).find? (fun pr => pr.1 == k)
      = some (k, v) := by
  induction d with
  | nil => cases h
  | cons p d ih =>
    simp only [List.map_cons]
    by_cases hp : (p.1 == k) = true
    · rw [if_pos hp]
      simp [List.find?]
    · rw [if_neg hp]
      have hp' : (p.1 == k) = false := by simpa using hp
      simp only [List.find?, hp']
      rw [List.any_cons] at h
      apply ih
      rcases Bool.or_eq_true_iff.mp h with h' | h'
      · exact absurd h' hp
      · exact h'

theorem find_map_upd_other {d : List (String × Value)} {k k' : String} {v : Value}
    (hne : k' ≠ k) :
    (d.map fun pr => if pr.1 == k then (k, v) else pr).find? (fun pr => pr.1 == k')
      = d.find? (fun pr => pr.1 == k') := by
  induction d with
  | nil => rfl
  | cons p d ih =>
    simp only [List.map_cons]
    by_cases hp : (p.1 == k) = true
    · rw [if_pos hp]
      have h1 : ((k, v).1 == k') = false := by
        simp
        exact fun e => hne e.symm
      have h2 : (p.1 == k') = false := by
        have hk : p.1 = k := by simpa using hp
        simp [hk]
        exact fun e => hne e.symm
      simp only [List.find?, h1, h2, ih]
    · rw [if_neg hp]
      by_cases hp' : (p.1 == k') = true
      · simp only [List.find?, hp']
      · have hp'' : (p.1 == k') = false := by simpa using hp'
        simp only [List.find?, hp'', ih]

theorem dictGet_insert_self (d : List (String × Value)) (k : String) (v : Value) :
    dictGet (dictInsert d k v) k = some v := by
  unfold dictInsert dictGet
  by_cases h : d.any (fun pr => pr.1 == k) = true
  · rw [if_pos h, find_map_upd h]
    rfl
  · rw [if_neg h]
    have hn : d.find? (fun pr => pr.1 == k) = none := by
      rw [List.find?_eq_none]
      intro x hx
      intro hxk
      exact h (List.any_eq_true.mpr ⟨x, hx, hxk⟩)
    rw [List.find?_append, hn, Option.none_or]
    rw [List.find?_cons_of_pos _ (by simp)]
    rfl

theorem dictGet_insert_other {k k' : String} (hne : k' ≠ k)
    (d : List (String × Value)) (v : Value) :
    dictGet (dictInsert d k v) k' = dictGet d k' := by
  unfold dictInsert dictGet
  by_cases h : d.any (fun pr => pr.1 == k) = true
  · rw [if_pos h, find_map_upd_other hne]
  · rw [if_neg h, List.find?_append]
    have hn : List.find? (fun pr => pr.1 == k') [(k, v)] = none := by
      rw [List.find?_eq_none]
      intro x hx hxk
      rcases List.mem_cons.mp hx with rfl | hx'
      · simp at hxk
        exact hne hxk.symm
      · cases hx'
    rw [hn, Option.or_none]

theorem dictGet_foldl (l : List (String × Value)) (d : List (String × Value)) (k : String) :
    dictGet (l.foldl (fun acc pr => dictInsert acc pr.1 pr.2) d) k =
      match l.reverse.find? (fun pr => pr.1 == k) with
      | some pr => some pr.2
      | none => dictGet d k := by
  induction l generalizing d with
  | nil => simp
  | cons p l ih =>
    rw [List.foldl_cons, ih, List.reverse_cons, List.find?_append]
    cases hf : l.reverse.find? (fun pr => pr.1 == k) with
    | some pr => rfl
    | none =>
      rw [Option.none_or]
      by_cases hp : (p.1 == k) = true
      · have hk : p.1 = k := by simpa using hp
        simp only [List.find?, hp]
        show dictGet (dictInsert d p.1 p.2) k = some p.2
        rw [hk, dictGet_insert_self]
      · have hp' : (p.1 == k) = false := by simpa using hp
        simp only [List.find?, hp']
        show dictGet (dictInsert d p.1 p.2) k = dictGet d k
        have hne : k ≠ p.1 := by
          intro e
          rw [← e] at hp'
          simp at hp'
        rw [dictGet_insert_other hne]

/-- **C10**: in expression (python) mode the per-row environment is
`dict(zip(colnames, row))` with column names space-to-underscore
transformed; when several columns map to the same identifier, the
identifier is bound to the value of the rightmost such column (the last
zip pair wins), silently shadowing the earlier ones. The right-hand side
is exactly "the value of the last matching column". -/
theorem python_env_rightmost_binding (t : Table) (row : List Value) (ident : String) :
    dictGet (pyRowEnv (pyColnames t) row) ident =
      (((pyColnames t).zip row).reverse.find? (fun pr => pr.1 == ident)).map Prod.snd := by
  unfold pyRowEnv dictOfZip
  rw [dictGet_foldl]
  cases hf : ((pyColnames t).zip row).reverse.find? (fun pr => pr.1 == ident) with
  | some pr => rfl
  | none => rfl

/-! ## Claim C4: one-row bound checking -/

theorem eval_excel_ne_badRef (code : Code) (args : List Arg) (ref : String) :
    eval_excel code args ≠ .error (.userVisible (msgOneRowBadRef ref)) := by
  unfold eval_excel
  cases code.run args with
  | ok v => simp
  | error e =>
    cases e with
    | notImplemented name =>
      intro h
      injection h with h'
      injection h' with h''
      have hkey : "excel.functionNotImplemented" = "excel.one_row.badRef" :=
        congrArg I18nMessage.key h''
      exact absurd hkey (by decide)
    | other s => simp

/-- The row filter of a slice is insensitive to clamping the upper row
bound at the table's row count. -/
theorem tableSliceFlat_clamp (t : Table) (r1 r2 c1 c2 : Nat) :
    tableSliceFlat t r1 r2 c1 c2 = tableSliceFlat t r1 (min r2 t.nRows) c1 c2 := by
  unfold tableSliceFlat
  congr 1
  apply List.filter_congr
  intro i hi
  have hin : i < t.nRows := List.mem_range.mp hi
  have he : decide (i < r2) = decide (i < min r2 t.nRows) :=
    decide_eq_decide.mpr (by omega)
  rw [he]

/-- **C4**: in SingleRow mode, for a declared input resolved to a single
range, validation fails with the `RangeOutOfBounds` message exactly when
`row_start < 0 ∨ col_start < 0 ∨ col_end > column_count ∨
row_start ≥ row_end ∨ col_start ≥ col_end` (0-based converted bounds);
a `row_end` beyond the table's rows is never by itself an error — the
slice is silently clamped to the existing rows (the explicit `min`). -/
theorem one_row_bounds_iff (t : Table) (tok : String) (rg : XRange)
    (run : List Arg → Except RunErr Value) :
    (eval_excel_one_row ⟨[(tok, some ⟨[rg]⟩)], run⟩ t
        = .error (.userVisible (msgOneRowBadRef rg.ref))
      ↔ (rg.r1 - 1 < 0 ∨ rg.n1 - 1 < 0 ∨ rg.n2 > (t.nCols : Int)
          ∨ rg.r1 - 1 ≥ rg.r2 ∨ rg.n1 - 1 ≥ rg.n2)) ∧
    (¬(rg.r1 - 1 < 0 ∨ rg.n1 - 1 < 0 ∨ rg.n2 > (t.nCols : Int)
        ∨ rg.r1 - 1 ≥ rg.r2 ∨ rg.n1 - 1 ≥ rg.n2) →
      eval_excel_one_row ⟨[(tok, some ⟨[rg]⟩)], run⟩ t
        = eval_excel ⟨[(tok, some ⟨[rg]⟩)], run⟩
            [flattenSingle (tableSliceFlat t (rg.r1 - 1).toNat (min rg.r2.toNat t.nRows)
              (rg.n1 - 1).toNat rg.n2.toNat)]) := by
  have hres : ¬ oneRowBad t rg →
      eval_excel_one_row ⟨[(tok, some ⟨[rg]⟩)], run⟩ t
        = eval_excel ⟨[(tok, some ⟨[rg]⟩)], run⟩
            [flattenSingle (tableSliceFlat t (rg.r1 - 1).toNat rg.r2.toNat
              (rg.n1 - 1).toNat rg.n2.toNat)] := by
    intro hnb
    simp [eval_excel_one_row, resolveOneRowArgs, if_neg hnb]
  constructor
  · constructor
    · intro h
      by_contra hb
      rw [hres hb] at h
      exact eval_excel_ne_badRef _ _ _ h
    · intro hb
      simp [eval_excel_one_row, resolveOneRowArgs, if_pos (show oneRowBad t rg from hb)]
  · intro hnb
    rw [hres hnb, tableSliceFlat_clamp]

theorem one_row_bounds_iff_witness :
    eval_excel_one_row
        ⟨[("A1:A99999", some ⟨[⟨1, 99999, 1, 1, "A1:A99999"⟩]⟩)], fun _ => Except.ok (Value.num 5)⟩
        ⟨[("A", Series.numeric [some 3])]⟩
      = Except.ok (Value.num 5) := by
  have h := (one_row_bounds_iff ⟨[("A", Series.numeric [some 3])]⟩ "A1:A99999"
    ⟨1, 99999, 1, 1, "A1:A99999"⟩ (fun _ => Except.ok (Value.num 5))).2 (by decide)
  rw [h]
  rfl

/-! ## Claim C2: multi-range inputs -/

/-- **C2 counterexample**: in AllRows mode an input token resolving to two
disjoint ranges does NOT fail with the NonRectangularRange message — each
range is resolved separately (and becomes its own argument), and the
evaluation succeeds. -/
theorem all_rows_multi_range_cex :
    eval_excel_all_rows
        ⟨[("A1 C1", some ⟨[⟨1, 1, 1, 1, "A1"⟩, ⟨1, 1, 3, 3, "C1"⟩]⟩)],
          fun _ => Except.ok (Value.num 7)⟩
        ⟨[("A", Series.numeric [some 1]), ("B", Series.numeric [some 2]),
          ("C", Series.numeric [some 3])]⟩
      = Except.ok (Series.numeric [some 7]) ∧
    eval_excel_all_rows
        ⟨[("A1 C1", some ⟨[⟨1, 1, 1, 1, "A1"⟩, ⟨1, 1, 3, 3, "C1"⟩]⟩)],
          fun _ => Except.ok (Value.num 7)⟩
        ⟨[("A", Series.numeric [some 1]), ("B", Series.numeric [some 2]),
          ("C", Series.numeric [some 3])]⟩
      ≠ Except.error (EvalErr.userVisible msgNotRectangular) := by
  exact ⟨by decide, by decide⟩

/-- **C2 (amended)**: only SingleRow mode rejects an input whose range
object does not hold exactly one range, with the NonRectangularRange
message (AllRows mode, per the counterexample, resolves every range of a
token separately and performs no such check). -/
theorem one_row_non_single_range_error (t : Table) (tok : String) (ob : RangeObj)
    (rest : List (String × Option RangeObj)) (run : List Arg → Except RunErr Value)
    (h : ob.ranges.length ≠ 1) :
    eval_excel_one_row ⟨(tok, some ob) :: rest, run⟩ t
      = .error (.userVisible msgNotRectangular) := by
  unfold eval_excel_one_row
  cases hr : ob.ranges with
  | nil => simp [resolveOneRowArgs, hr]
  | cons rg rs =>
    cases rs with
    | nil =>
      rw [hr] at h
      simp at h
    | cons rg2 rs2 => simp [resolveOneRowArgs, hr]

theorem one_row_non_single_range_error_witness :
    eval_excel_one_row
        ⟨[("X", some ⟨[⟨1, 1, 1, 1, "A1"⟩, ⟨2, 2, 1, 1, "A2"⟩]⟩)], fun _ => Except.ok Value.null⟩
        ⟨[("A", Series.numeric [some 1])]⟩
      = Except.error (EvalErr.userVisible msgNotRectangular) :=
  one_row_non_single_range_error ⟨[("A", Series.numeric [some 1])]⟩ "X"
    ⟨[⟨1, 1, 1, 1, "A1"⟩, ⟨2, 2, 1, 1, "A2"⟩]⟩ [] (fun _ => Except.ok Value.null) (by decide)

/-! ## Claim C3: when sanitize un-categorizes -/

/-- Does sanitizing this series yield a Numeric column? -/
def sanitizeGivesNumeric (s : Series) : Bool :=
  match sanitize_series s with
  | .ok (Series.numeric _) => true
  | _ => false

/-- **C3 counterexample**: a categorical column with labels "1" and "2" —
every label parses as a number — is NOT converted to Numeric by sanitize:
it comes back unchanged as a categorical (the code tests the label
array's storage dtype, not parseability; `autocast_series_dtype` is what
converts it later). -/
theorem sanitize_parse_labels_cex :
    (parseNum "1").isSome = true ∧ (parseNum "2").isSome = true ∧
    sanitize_series (Series.cat [Value.str "1", Value.str "2"] [some 0, some 1])
      = Except.ok (Series.cat [Value.str "1", Value.str "2"] [some 0, some 1]) ∧
    sanitizeGivesNumeric (Series.cat [Value.str "1", Value.str "2"] [some 0, some 1]) = false :=
  ⟨by decide, by decide, by decide, by decide⟩

theorem seriesWF_cat {labels : List Value} {codes : List (Option Nat)}
    (h : seriesWF (Series.cat labels codes) = true) :
    ∀ c ∈ codes, ∀ i, c = some i → i < labels.length := by
  simp only [seriesWF, List.all_eq_true] at h
  intro c hc i hi
  have := h c hc
  subst hi
  simpa using this

/-- **C3 (amended)**: sanitize un-categorizes exactly when the pruned
label array has numeric storage dtype (all labels are actual numbers):
then the column becomes Numeric via `to_numeric`; a label set of strings
— even strings that all parse as numbers — is left categorical (the
hypotheses make pruning a no-op so the claim is about the label set as
given: codes in range and every label used). -/
theorem sanitize_uncategorize_iff_numeric_dtype (labels : List Value)
    (codes : List (Option Nat))
    (hne : labels ≠ [])
    (hwf : seriesWF (Series.cat labels codes) = true)
    (hused : (List.range labels.length).all (fun j => decide (some j ∈ codes)) = true) :
    (labels.all isNumericValue = true →
      sanitize_series (Series.cat labels codes)
        = Except.ok (Series.numeric
            (codes.map fun c => c.bind fun i => valueNum (labels.getD i Value.null)))) ∧
    (labels.all isStrValue = true →
      sanitize_series (Series.cat labels codes) = Except.ok (Series.cat labels codes)) := by
  have hin : ∀ c ∈ codes, ∀ i, c = some i → i < labels.length := seriesWF_cat hwf
  have hused' : ∀ j, j < labels.length → some j ∈ codes := by
    intro j hj
    have := List.all_eq_true.mp hused j (List.mem_range.mpr hj)
    simpa using this
  constructor
  · intro hall
    show sanitizeCatPruned (pruneCat labels codes).1 (pruneCat labels codes).2 = _
    rw [pruneCat_id hin hused']
    simp only [sanitizeCatPruned]
    rw [if_pos ⟨hne, hall⟩]
  · intro hall
    apply sanitize_series_fix
    refine Or.inr ⟨hne, ?_, hin, hused'⟩
    intro l hl
    have hl2 := List.all_eq_true.mp hall l hl
    cases l with
    | str s => exact ⟨s, rfl⟩
    | null => simp [isStrValue] at hl2
    | num q => simp [isStrValue] at hl2
    | dt ns => simp [isStrValue] at hl2
    | obj o => simp [isStrValue] at hl2

theorem sanitize_uncategorize_iff_numeric_dtype_witness :
    sanitize_series (Series.cat [Value.num 3] [some 0, none])
      = Except.ok (Series.numeric
          ([some 0, none].map fun c => c.bind fun i =>
            valueNum ([Value.num 3].getD i Value.null))) ∧
    sanitize_series (Series.cat [Value.num 3] [some 0, none])
      = Except.ok (Series.numeric [some 3, none]) := by
  have h := (sanitize_uncategorize_iff_numeric_dtype [Value.num 3] [some 0, none]
    (by decide) (by decide) (by decide)).1 (by decide)
  exact ⟨h, by decide⟩

/-! ## Claim C5: datetime-to-serial table preparation -/

/-- **C5**: table preparation converts every Datetime column to Numeric
date serials `(instant - 1899-12-30) / one_day`; instants strictly before
1900-01-01 map to null; every non-Datetime column is untouched by the
rebuild; and a table with no Datetime columns is returned unchanged. -/
theorem prepare_table_spec (t : Table) :
    (t.cols.all (fun c =>
        match c.2 with
        | Series.datetime _ => false
        | _ => true) = true →
      prepareTableForExcelFormulas t = t) ∧
    (t.cols.all (fun c =>
        match c.2 with
        | Series.datetime _ => false
        | _ => true) = false →
      (prepareTableForExcelFormulas t).cols = t.cols.map fun c =>
        match c.2 with
        | Series.datetime vs => (c.1, Series.numeric (vs.map fun o => o.bind dtSerial))
        | _ => c) ∧
    (∀ ns : Int, excel1900MinNs ≤ ns →
      dtSerial ns = some (((ns - excel1900ZeroNs : Int) : Rat) / ((oneDayNs : Int) : Rat))) ∧
    (∀ ns : Int, ns < excel1900MinNs → dtSerial ns = none) := by
  refine ⟨?_, ?_, ?_, ?_⟩
  · intro h
    unfold prepareTableForExcelFormulas
    rw [if_pos h]
  · intro h
    unfold prepareTableForExcelFormulas
    rw [if_neg (by rw [h]; exact Bool.false_ne_true)]
  · intro ns h
    unfold dtSerial
    rw [if_pos h]
  · intro ns h
    unfold dtSerial
    rw [if_neg (by omega)]

theorem prepare_table_spec_witness :
    (prepareTableForExcelFormulas
        ⟨[("d", Series.datetime
            [some (-25567 * 86400000000000), some (-25570 * 86400000000000), none]),
          ("x", Series.numeric [some 1, none, some 2])]⟩).cols
      = [("d", Series.numeric [some 2, none, none]),
         ("x", Series.numeric [some 1, none, some 2])] := by
  have h := (prepare_table_spec
    ⟨[("d", Series.datetime
        [some (-25567 * 86400000000000), some (-25570 * 86400000000000), none]),
      ("x", Series.numeric [some 1, none, some 2])]⟩).2.1 (by decide)
  rw [h]
  norm_num [dtSerial, excel1900MinNs, excel1900ZeroNs, oneDayNs, Option.bind]

/-! ## Claim C6: the one-row broadcast column -/

/-- Modelled from the spec (section 3): a column using only the canonical
storage types — Numeric, Datetime, Categorical with string labels, or
String (an object column whose payload is strings and nulls only). -/
def seriesCanonicalSpec : Series → Bool
  | .numeric _ => true
  | .datetime _ => true
  | .obj vs => vs.all fun v => decide (v = Value.null) || isStrValue v
  | .cat labels _ => labels.all isStrValue

theorem mkSeries_num (q : Rat) (k : Nat) :
    mkSeries (Value.num q :: List.replicate k Value.null)
      = Series.numeric (some q :: List.replicate k none) := by
  unfold mkSeries
  have hc : ((Value.num q :: List.replicate k Value.null).all
        (fun v => decide (v = Value.null) || isNumericValue v)
      && (Value.num q :: List.replicate k Value.null).any isNumericValue) = true := by
    rw [Bool.and_eq_true]
    constructor
    · rw [List.all_eq_true]
      intro x hx
      rcases List.mem_cons.mp hx with rfl | hx'
      · simp [isNumericValue]
      · rw [List.eq_of_mem_replicate hx']
        simp
    · rw [List.any_eq_true]
      exact ⟨Value.num q, List.mem_cons_self _ _, rfl⟩
  rw [if_pos hc]
  simp [valueNum, List.map_replicate]

theorem mkSeries_nonnum {v : Value} (h : isNumericValue v = false) (k : Nat) :
    mkSeries (v :: List.replicate k Value.null)
      = Series.obj (v :: List.replicate k Value.null) := by
  unfold mkSeries
  have hc : ¬ (((v :: List.replicate k Value.null).all
        (fun w => decide (w = Value.null) || isNumericValue w)
      && (v :: List.replicate k Value.null).any isNumericValue) = true) := by
    intro hh
    rw [Bool.and_eq_true] at hh
    rcases List.any_eq_true.mp hh.2 with ⟨x, hx, hxn⟩
    rcases List.mem_cons.mp hx with rfl | hx'
    · rw [h] at hxn
      cases hxn
    · rw [List.eq_of_mem_replicate hx'] at hxn
      cases hxn
  rw [if_neg hc]

theorem getD_replicate_self {α : Type} (a : α) (k i : Nat) :
    (List.replicate k a).getD i a = a := by
  induction k generalizing i with
  | zero => simp
  | succ k ih =>
    cases i with
    | zero => simp [List.replicate_succ]
    | succ i => simp [List.replicate_succ, List.getD_cons_succ, ih]

/-- **C6 counterexample**: when the single evaluated value is an opaque
object (e.g. a spreadsheet error object such as `XlError('#DIV/0!')`, whose
`str()` is its display text), the directly-constructed broadcast column is
an object column holding a non-string, non-null payload — NOT one of the
canonical storage types (and sanitize would have stringified it). -/
theorem excel_one_row_broadcast_cex :
    excel_formula
        (fun _ => Except.ok ⟨[], fun _ => Except.ok (Value.obj "DIV0 error")⟩)
        ⟨[("A", Series.numeric [some 1, some 2])]⟩ "=1/0" false
      = Except.ok (Series.obj [Value.obj "DIV0 error", Value.null]) ∧
    seriesCanonicalSpec (Series.obj [Value.obj "DIV0 error", Value.null]) = false :=
  ⟨by decide, by decide⟩

/-- **C6 (amended)**: in spreadsheet SingleRow mode a successful
evaluation with value `v` yields the column built directly as
`pd.Series([v] + [None] * (len(table) - 1))` — sanitize/autocast are
bypassed; it has `v` at row 0 and nulls at every later row, and its
length is the row count whenever the table is nonempty. The column is
canonical when `v` is a number, a string or null — but (per the
counterexample) need not be canonical for other scalars. -/
theorem excel_one_row_broadcast (parseExcel : String → Except String Code)
    (t : Table) (f : String) (code : Code) (v : Value)
    (hp : parseExcel f = .ok code)
    (he : eval_excel_one_row code t = .ok v) :
    excel_formula parseExcel t f false
        = .ok (mkSeries (v :: List.replicate (t.nRows - 1) Value.null)) ∧
    (1 ≤ t.nRows →
      (mkSeries (v :: List.replicate (t.nRows - 1) Value.null)).length = t.nRows) ∧
    (mkSeries (v :: List.replicate (t.nRows - 1) Value.null)).cellAt 0 = v ∧
    (∀ i, 1 ≤ i →
      (mkSeries (v :: List.replicate (t.nRows - 1) Value.null)).cellAt i = Value.null) ∧
    ((v = Value.null ∨ isNumericValue v = true ∨ isStrValue v = true) →
      seriesCanonicalSpec (mkSeries (v :: List.replicate (t.nRows - 1) Value.null)) = true) := by
  refine ⟨?_, ?_, ?_, ?_, ?_⟩
  · unfold excel_formula
    rw [hp]
    show (match eval_excel_one_row code t with
      | .error e => Except.error e
      | .ok v => Except.ok (mkSeries (v :: List.replicate (t.nRows - 1) Value.null))) = _
    rw [he]
  · intro hn
    by_cases hv : isNumericValue v = true
    · rcases v with _ | q | s | ns | o <;> simp [isNumericValue] at hv
      rw [mkSeries_num]
      simp [Series.length]
      omega
    · rw [mkSeries_nonnum (by simpa using hv)]
      simp [Series.length]
      omega
  · by_cases hv : isNumericValue v = true
    · rcases v with _ | q | s | ns | o <;> simp [isNumericValue] at hv
      rw [mkSeries_num]
      rfl
    · rw [mkSeries_nonnum (by simpa using hv)]
      rfl
  · intro i hi
    rcases Nat.exists_eq_add_of_le hi with ⟨j, rfl⟩
    rw [Nat.add_comm 1 j]
    by_cases hv : isNumericValue v = true
    · rcases v with _ | q | s | ns | o <;> simp [isNumericValue] at hv
      rw [mkSeries_num]
      simp only [Series.cellAt, List.getD_cons_succ]
      rw [getD_replicate_self]
      rfl
    · rw [mkSeries_nonnum (by simpa using hv)]
      simp only [Series.cellAt, List.getD_cons_succ]
      rw [getD_replicate_self]
  · intro hv
    rcases hv with rfl | hnum | hstr
    · rw [mkSeries_nonnum (show isNumericValue Value.null = false from rfl)]
      simp only [seriesCanonicalSpec, List.all_eq_true]
      intro x hx
      rcases List.mem_cons.mp hx with rfl | hx'
      · simp
      · rw [List.eq_of_mem_replicate hx']
        simp
    · rcases v with _ | q | s | ns | o <;> simp [isNumericValue] at hnum
      rw [mkSeries_num]
      rfl
    · rcases v with _ | q | s | ns | o <;> simp [isStrValue] at hstr
      rw [mkSeries_nonnum (show isNumericValue (Value.str s) = false from rfl)]
      simp only [seriesCanonicalSpec, List.all_eq_true]
      intro x hx
      rcases List.mem_cons.mp hx with rfl | hx'
      · simp [isStrValue]
      · rw [List.eq_of_mem_replicate hx']
        simp

/-! ## Claim C8: output column naming -/

theorem decDigit_inj_lt : ∀ a, a < 10 → ∀ b, b < 10 → decDigit a = decDigit b → a = b := by
  decide

theorem natReprAuxFuel_ne_nil : ∀ fuel n, n < fuel → natReprAuxFuel fuel n ≠ [] := by
  intro fuel
  cases fuel with
  | zero =>
    intro n h
    omega
  | succ fuel =>
    intro n _
    simp only [natReprAuxFuel]
    by_cases h10 : n < 10
    · rw [if_pos h10]
      simp
    · rw [if_neg h10]
      intro he
      have := congrArg List.length he
      simp at this

theorem natReprAuxFuel_inj : ∀ m fm fn n, m < fm → n < fn →
    natReprAuxFuel fm m = natReprAuxFuel fn n → m = n := by
  intro m
  induction m using Nat.strong_induction_on with
  | _ m ih =>
    intro fm fn n hm hn h
    cases fm with
    | zero => omega
    | succ fm =>
      cases fn with
      | zero => omega
      | succ fn =>
        simp only [natReprAuxFuel] at h
        by_cases hm10 : m < 10 <;> by_cases hn10 : n < 10
        · rw [if_pos hm10, if_pos hn10] at h
          injection h with h1 _
          exact decDigit_inj_lt m hm10 n hn10 h1
        · rw [if_pos hm10, if_neg hn10] at h
          exfalso
          cases hl : natReprAuxFuel fn (n / 10) with
          | nil => exact natReprAuxFuel_ne_nil fn (n / 10) (by omega) hl
          | cons a l' =>
            rw [hl] at h
            have hlen := congrArg List.length h
            rw [List.length_append] at hlen
            simp only [List.length_cons, List.length_nil] at hlen
            omega
        · rw [if_neg hm10, if_pos hn10] at h
          exfalso
          cases hl : natReprAuxFuel fm (m / 10) with
          | nil => exact natReprAuxFuel_ne_nil fm (m / 10) (by omega) hl
          | cons a l' =>
            rw [hl] at h
            have hlen := congrArg List.length h
            rw [List.length_append] at hlen
            simp only [List.length_cons, List.length_nil] at hlen
            omega
        · rw [if_neg hm10, if_neg hn10] at h
          have hrev := congrArg List.reverse h
          simp only [List.reverse_append, List.reverse_cons, List.reverse_nil,
            List.nil_append, List.cons_append, List.singleton_append] at hrev
          injection hrev with h1 h2
          have hmod : m % 10 = n % 10 := decDigit_inj_lt _ (by omega) _ (by omega) h1
          have hdiv : m / 10 = n / 10 := by
            apply ih (m / 10) (by omega) fm fn (n / 10) (by omega) (by omega)
            exact List.reverse_injective h2
          omega

theorem natRepr_inj {m n : Nat} (h : natRepr m = natRepr n) : m = n := by
  unfold natRepr at h
  have h' : natReprAuxFuel (m + 1) m = natReprAuxFuel (n + 1) n := by
    injection h
  exact natReprAuxFuel_inj m (m + 1) (n + 1) n (by omega) (by omega) h'

theorem exists_free_suffix (names : List String) (oc : String) :
    ∃ n, n ≤ names.length ∧ (oc ++ natRepr n) ∉ names := by
  by_contra hc
  push_neg at hc
  have hinj : Function.Injective (fun n : Nat => oc ++ natRepr n) := by
    intro a b hab
    simp only at hab
    have hd := congrArg String.data hab
    rw [String.data_append, String.data_append] at hd
    have hl := List.append_cancel_left hd
    exact natReprAuxFuel_inj a (a + 1) (b + 1) b (by omega) (by omega) hl
  have hnodup : ((List.range (names.length + 1)).map fun n => oc ++ natRepr n).Nodup :=
    List.Nodup.map hinj (List.nodup_range _)
  have hsub : ((List.range (names.length + 1)).map fun n => oc ++ natRepr n) ⊆ names := by
    intro x hx
    rw [List.mem_map] at hx
    rcases hx with ⟨n, hn, rfl⟩
    exact hc n (by have := List.mem_range.mp hn; omega)
  have h1 : ((List.range (names.length + 1)).map fun n => oc ++ natRepr n).toFinset.card
      = ((List.range (names.length + 1)).map fun n => oc ++ natRepr n).length :=
    List.toFinset_card_of_nodup hnodup
  have h2 : ((List.range (names.length + 1)).map fun n => oc ++ natRepr n).toFinset
      ⊆ names.toFinset := by
    intro x hx
    rw [List.mem_toFinset] at hx ⊢
    exact hsub hx
  have h3 := Finset.card_le_card h2
  have h4 := List.toFinset_card_le names
  rw [h1] at h3
  simp only [List.length_map, List.length_range] at h3
  omega

theorem findSuffix_least (names : List String) (oc : String) :
    ∀ fuel start, (∃ k, start ≤ k ∧ k < start + fuel ∧ (oc ++ natRepr k) ∉ names) →
      (oc ++ natRepr (findSuffix names oc fuel start)) ∉ names ∧
      start ≤ findSuffix names oc fuel start ∧
      (∀ m, start ≤ m → m < findSuffix names oc fuel start → (oc ++ natRepr m) ∈ names) := by
  intro fuel
  induction fuel with
  | zero =>
    intro start h
    rcases h with ⟨k, hk1, hk2, _⟩
    omega
  | succ fuel ih =>
    intro start h
    rcases h with ⟨k, hk1, hk2, hk3⟩
    by_cases hs : (oc ++ natRepr start) ∈ names
    · have heq : findSuffix names oc (fuel + 1) start = findSuffix names oc fuel (start + 1) := by
        simp only [findSuffix]
        rw [if_pos hs]
      rw [heq]
      have hk' : start + 1 ≤ k := by
        rcases Nat.eq_or_lt_of_le hk1 with rfl | hlt
        · exact absurd hs hk3
        · omega
      obtain ⟨h1, h2, h3⟩ := ih (start + 1) ⟨k, hk', by omega, hk3⟩
      refine ⟨h1, by omega, ?_⟩
      intro m hm1 hm2
      rcases Nat.eq_or_lt_of_le hm1 with rfl | hlt
      · exact hs
      · exact h3 m hlt hm2
    · have heq : findSuffix names oc (fuel + 1) start = start := by
        simp only [findSuffix]
        rw [if_neg hs]
      rw [heq]
      exact ⟨hs, Nat.le_refl _, fun m hm1 hm2 => absurd hm2 (by omega)⟩

/-- **C8**: the output column name defaults to "result" when the request
is empty; used verbatim when it does not collide with an existing column;
and on collision the appended suffix is the smallest `n ≥ 0` such that the
name followed by the decimal text of `n` is not an existing column name. -/
theorem output_column_naming (t : Table) (req : String) :
    ((if req = "" then "result" else req) ∉ t.cols.map Prod.fst →
      getOutputColumn t req = (if req = "" then "result" else req)) ∧
    ((if req = "" then "result" else req) ∈ t.cols.map Prod.fst →
      ∃ n, getOutputColumn t req = (if req = "" then "result" else req) ++ natRepr n ∧
        ((if req = "" then "result" else req) ++ natRepr n) ∉ t.cols.map Prod.fst ∧
        ∀ m, m < n → ((if req = "" then "result" else req) ++ natRepr m) ∈ t.cols.map Prod.fst) := by
  constructor
  · intro h
    simp only [getOutputColumn]
    rw [if_neg h]
  · intro h
    simp only [getOutputColumn]
    rw [if_pos h]
    refine ⟨findSuffix (t.cols.map Prod.fst) (if req = "" then "result" else req)
      ((t.cols.map Prod.fst).length + 1) 0, rfl, ?_, ?_⟩
    · rcases exists_free_suffix (t.cols.map Prod.fst) (if req = "" then "result" else req)
        with ⟨k, hk1, hk2⟩
      exact (findSuffix_least _ _ _ 0 ⟨k, by omega, by omega, hk2⟩).1
    · intro m hm
      rcases exists_free_suffix (t.cols.map Prod.fst) (if req = "" then "result" else req)
        with ⟨k, hk1, hk2⟩
      exact (findSuffix_least _ _ _ 0 ⟨k, by omega, by omega, hk2⟩).2.2 m (by omega) hm

theorem output_column_naming_witness :
    getOutputColumn ⟨[("A", Series.obj []), ("result", Series.obj [])]⟩ "" = "result0" ∧
    getOutputColumn ⟨[("A", Series.obj []), ("result", Series.obj []),
      ("result0", Series.obj [])]⟩ "" = "result1" ∧
    (∃ n, getOutputColumn ⟨[("A", Series.obj []), ("result", Series.obj [])]⟩ ""
        = (if "" = "" then "result" else "") ++ natRepr n ∧
      ((if "" = "" then "result" else "") ++ natRepr n)
          ∉ (Table.mk [("A", Series.obj []), ("result", Series.obj [])]).cols.map Prod.fst ∧
      ∀ m, m < n → ((if "" = "" then "result" else "") ++ natRepr m)
          ∈ (Table.mk [("A", Series.obj []), ("result", Series.obj [])]).cols.map Prod.fst) :=
  ⟨by decide, by decide,
    (output_column_naming ⟨[("A", Series.obj []), ("result", Series.obj [])]⟩ "").2 (by decide)⟩

/-! ## Claim C1: the render error boundary -/

/-- **C1**: every evaluation failure raised as a `UserVisibleError` — which
is how all the taxonomy kinds reachable from the spreadsheet path are
raised (InvalidFormula, InvalidReference, NonRectangularRange,
FirstRowOnlyViolation, ColumnOutOfRange/RangeOutOfBounds,
FunctionNotImplemented) and how DisabledCapability is raised on the
python path — is caught at the `render` boundary and returned as an i18n
message value; any other python-path exception (ExpressionRuntimeError)
is likewise caught and returned as its string description. In all these
cases `render` returns `.ok`, i.e. nothing escapes as an uncaught
exception. -/
theorem render_catches_user_visible (parseExcel : String → Except String Code)
    (compilePy : String → Except String (List (String × Value) → Except EvalErr Value))
    (t : Table) (p : RenderParams) :
    (∀ m, p.stx = "excel" → ¬ pyStrip p.formula_excel = "" →
      excel_formula parseExcel (prepareTableForExcelFormulas t) p.formula_excel p.all_rows
          = .error (.userVisible m) →
      render parseExcel compilePy (some t) p = .ok (.message m)) ∧
    (∀ m, ¬ p.stx = "excel" → ¬ pyStrip p.formula_python = "" →
      python_formula compilePy t (pyStrip p.formula_python) = .error (.userVisible m) →
      render parseExcel compilePy (some t) p = .ok (.message m)) ∧
    (∀ s, ¬ p.stx = "excel" → ¬ pyStrip p.formula_python = "" →
      python_formula compilePy t (pyStrip p.formula_python) = .error (.exn s) →
      render parseExcel compilePy (some t) p = .ok (.text s)) := by
  refine ⟨?_, ?_, ?_⟩
  · intro m hs hf he
    show (if p.stx = "excel" then _ else _) = _
    rw [if_pos hs, if_neg hf, he]
  · intro m hs hf he
    show (if p.stx = "excel" then _ else _) = _
    rw [if_neg hs, if_neg hf, he]
  · intro s hs hf he
    show (if p.stx = "excel" then _ else _) = _
    rw [if_neg hs, if_neg hf, he]

theorem render_catches_user_visible_witness :
    render (fun _ => Except.error "bad token") (fun _ => Except.error "boom")
        (some ⟨[("A", Series.numeric [some 1])]⟩)
        ⟨"excel", "=FOO()", "", false, "out"⟩
      = Except.ok (RenderResult.message (msgInvalidFormula "bad token")) :=
  (render_catches_user_visible (fun _ => Except.error "bad token")
    (fun _ => Except.error "boom") ⟨[("A", Series.numeric [some 1])]⟩
    ⟨"excel", "=FOO()", "", false, "out"⟩).1 (msgInvalidFormula "bad token")
    rfl (by decide) rfl

theorem excel_one_row_broadcast_witness :
    excel_formula (fun _ => Except.ok (⟨[], fun _ => Except.ok (Value.num 5)⟩ : Code))
        ⟨[("A", Series.numeric [some 1, some 2, some 3])]⟩ "=5" false
      = Except.ok (mkSeries (Value.num 5 :: List.replicate
          ((Table.mk [("A", Series.numeric [some 1, some 2, some 3])]).nRows - 1) Value.null)) :=
  (excel_one_row_broadcast (fun _ => Except.ok (⟨[], fun _ => Except.ok (Value.num 5)⟩ : Code))
    ⟨[("A", Series.numeric [some 1, some 2, some 3])]⟩ "=5"
    ⟨[], fun _ => Except.ok (Value.num 5)⟩ (Value.num 5) rfl rfl).1
